import Mathlib

/-!
Verification of the Adobe Web SDK Inspector background script
(`src/background.js`) against its natural-language specification.

The JavaScript code is shallowly embedded: JSON-like runtime values become
the inductive type `JSValue` (with an explicit `undefined` constructor for
JavaScript's `undefined`), fallible operations return `Except JsError`,
and the stateful request cache becomes explicit state passing over a
`RequestCache` structure with `Date.now()` and `setTimeout` modelled as an
explicit clock argument and an explicit set of live timers.
-/

namespace NoseySdk

/-- JavaScript runtime values as they occur in this extension: everything
`JSON.parse` can produce, plus `undefined` (`undefined`), which the code uses
pervasively as the "absent" marker.  Numbers are modelled as `Int`; the
code performs no arithmetic on payload numbers, so fractional values are
irrelevant to every claim considered here. -/
inductive JSValue where
  | undefined
  | null
  | bool (b : Bool)
  | num (n : Int)
  | str (s : String)
  | arr (elems : List JSValue)
  | obj (fields : List (String × JSValue))
deriving Repr

mutual

/-- Decidable structural equality on `JSValue` (the `SameValueZero`
comparison JavaScript uses for primitives; see the model notes). -/
def decEqVal : (a b : JSValue) → Decidable (a = b)
  | .undefined, .undefined => .isTrue rfl
  | .null, .null => .isTrue rfl
  | .bool x, .bool y =>
      if h : x = y then .isTrue (by rw [h]) else .isFalse (fun he => h (by injection he))
  | .num x, .num y =>
      if h : x = y then .isTrue (by rw [h]) else .isFalse (fun he => h (by injection he))
  | .str x, .str y =>
      if h : x = y then .isTrue (by rw [h]) else .isFalse (fun he => h (by injection he))
  | .arr x, .arr y =>
      match decEqList x y with
      | .isTrue h => .isTrue (by rw [h])
      | .isFalse h => .isFalse (fun he => h (by injection he))
  | .obj x, .obj y =>
      match decEqFields x y with
      | .isTrue h => .isTrue (by rw [h])
      | .isFalse h => .isFalse (fun he => h (by injection he))
  | .undefined, .null => .isFalse (fun he => JSValue.noConfusion he)
  | .undefined, .bool _ => .isFalse (fun he => JSValue.noConfusion he)
  | .undefined, .num _ => .isFalse (fun he => JSValue.noConfusion he)
  | .undefined, .str _ => .isFalse (fun he => JSValue.noConfusion he)
  | .undefined, .arr _ => .isFalse (fun he => JSValue.noConfusion he)
  | .undefined, .obj _ => .isFalse (fun he => JSValue.noConfusion he)
  | .null, .undefined => .isFalse (fun he => JSValue.noConfusion he)
  | .null, .bool _ => .isFalse (fun he => JSValue.noConfusion he)
  | .null, .num _ => .isFalse (fun he => JSValue.noConfusion he)
  | .null, .str _ => .isFalse (fun he => JSValue.noConfusion he)
  | .null, .arr _ => .isFalse (fun he => JSValue.noConfusion he)
  | .null, .obj _ => .isFalse (fun he => JSValue.noConfusion he)
  | .bool _, .undefined => .isFalse (fun he => JSValue.noConfusion he)
  | .bool _, .null => .isFalse (fun he => JSValue.noConfusion he)
  | .bool _, .num _ => .isFalse (fun he => JSValue.noConfusion he)
  | .bool _, .str _ => .isFalse (fun he => JSValue.noConfusion he)
  | .bool _, .arr _ => .isFalse (fun he => JSValue.noConfusion he)
  | .bool _, .obj _ => .isFalse (fun he => JSValue.noConfusion he)
  | .num _, .undefined => .isFalse (fun he => JSValue.noConfusion he)
  | .num _, .null => .isFalse (fun he => JSValue.noConfusion he)
  | .num _, .bool _ => .isFalse (fun he => JSValue.noConfusion he)
  | .num _, .str _ => .isFalse (fun he => JSValue.noConfusion he)
  | .num _, .arr _ => .isFalse (fun he => JSValue.noConfusion he)
  | .num _, .obj _ => .isFalse (fun he => JSValue.noConfusion he)
  | .str _, .undefined => .isFalse (fun he => JSValue.noConfusion he)
  | .str _, .null => .isFalse (fun he => JSValue.noConfusion he)
  | .str _, .bool _ => .isFalse (fun he => JSValue.noConfusion he)
  | .str _, .num _ => .isFalse (fun he => JSValue.noConfusion he)
  | .str _, .arr _ => .isFalse (fun he => JSValue.noConfusion he)
  | .str _, .obj _ => .isFalse (fun he => JSValue.noConfusion he)
  | .arr _, .undefined => .isFalse (fun he => JSValue.noConfusion he)
  | .arr _, .null => .isFalse (fun he => JSValue.noConfusion he)
  | .arr _, .bool _ => .isFalse (fun he => JSValue.noConfusion he)
  | .arr _, .num _ => .isFalse (fun he => JSValue.noConfusion he)
  | .arr _, .str _ => .isFalse (fun he => JSValue.noConfusion he)
  | .arr _, .obj _ => .isFalse (fun he => JSValue.noConfusion he)
  | .obj _, .undefined => .isFalse (fun he => JSValue.noConfusion he)
  | .obj _, .null => .isFalse (fun he => JSValue.noConfusion he)
  | .obj _, .bool _ => .isFalse (fun he => JSValue.noConfusion he)
  | .obj _, .num _ => .isFalse (fun he => JSValue.noConfusion he)
  | .obj _, .str _ => .isFalse (fun he => JSValue.noConfusion he)
  | .obj _, .arr _ => .isFalse (fun he => JSValue.noConfusion he)

def decEqList : (a b : List JSValue) → Decidable (a = b)
  | [], [] => .isTrue rfl
  | [], _ :: _ => .isFalse (fun he => List.noConfusion he)
  | _ :: _, [] => .isFalse (fun he => List.noConfusion he)
  | x :: xs, y :: ys =>
      match decEqVal x y, decEqList xs ys with
      | .isTrue h1, .isTrue h2 => .isTrue (by rw [h1, h2])
      | .isFalse h1, _ => .isFalse (fun he => h1 (by injection he))
      | _, .isFalse h2 => .isFalse (fun he => h2 (by injection he))

def decEqFields : (a b : List (String × JSValue)) → Decidable (a = b)
  | [], [] => .isTrue rfl
  | [], _ :: _ => .isFalse (fun he => List.noConfusion he)
  | _ :: _, [] => .isFalse (fun he => List.noConfusion he)
  | (k, v) :: xs, (l, w) :: ys =>
      if hk : k = l then
        match decEqVal v w, decEqFields xs ys with
        | .isTrue h1, .isTrue h2 => .isTrue (by rw [hk, h1, h2])
        | .isFalse h1, _ =>
            .isFalse (fun he => h1 (by injection he with hh ht; injection hh))
        | _, .isFalse h2 => .isFalse (fun he => h2 (by injection he))
      else
        .isFalse (fun he => hk (by injection he with hh ht; injection hh))

end

instance : DecidableEq JSValue := decEqVal

/-- JavaScript truthiness for the modelled values: `undefined`, `null`,
`false`, `0` and `""` are falsy, everything else (including `[]` and `{}`)
is truthy. -/
def jsTruthy : JSValue → Bool
  | .undefined => false
  | .null => false
  | .bool b => b
  | .num n => n != 0
  | .str s => s ≠ ""
  | .arr _ => true
  | .obj _ => true

/-- Is the value a JavaScript array (`Array.isArray`)? -/
def isJsArray : JSValue → Bool
  | .arr _ => true
  | _ => false

/-- Parse a nonempty run of decimal digits (kernel-reducible replacement
for `String.toNat?` on the character list). -/
def natDigits? (cs : List Char) : Option Nat :=
  cs.foldl
    (fun acc c =>
      match acc with
      | none => none
      | some n => if '0' ≤ c ∧ c ≤ '9' then some (n * 10 + (c.toNat - '0'.toNat)) else none)
    (some 0)

/-- A string is a canonical array index ("0", "1", ... with no leading
zeros) below `len`; only such strings are own properties of a JavaScript
array or string. -/
def canonicalIndex (s : String) (len : Nat) : Option Nat :=
  match s.data with
  | [] => none
  | c :: rest =>
      if c = '0' ∧ rest ≠ [] then none
      else
        match natDigits? (c :: rest) with
        | some i => if i < len then some i else none
        | none => none

/-- `s.split('.')` for a single-character separator, as JavaScript's
`String.prototype.split` behaves (e.g. `""` ↦ `[""]`, `"a..b"` ↦
`["a", "", "b"]`), implemented by structural recursion on the character
list so that concrete resolutions evaluate inside the kernel. -/
def splitDot : List Char → List (List Char)
  | [] => [[]]
  | c :: rest =>
      if c = '.' then [] :: splitDot rest
      else
        match splitDot rest with
        | [] => [[c]]
        | h :: t => (c :: h) :: t

/-- The key list `path.split('.')`. -/
def splitPath (s : String) : List String := (splitDot s.data).map String.mk

/-- Own-property access `v[key]`, returning `undefined` when absent.  Objects
look keys up in their field list; arrays and strings expose `length` and
canonical numeric indices.  Inherited prototype members (e.g. method
properties such as `toString`) are not modelled; no claim depends on
them. -/
def getProp : JSValue → String → JSValue
  | .obj fields, key =>
      match fields.lookup key with
      | some v => v
      | none => .undefined
  | .arr elems, key =>
      if key = "length" then .num elems.length
      else
        match canonicalIndex key elems.length with
        | some i => elems.getD i .undefined
        | none => .undefined
  | .str s, key =>
      if key = "length" then .num s.length
      else
        match canonicalIndex key s.length with
        | some i => .str (String.mk [s.data.getD i ' '])
        | none => .undefined
  | _, _ => .undefined

/-- One step of the `reduce` in `utils.getNestedProperty`:
`(acc && acc[key] !== undefined) ? acc[key] : undefined`. -/
def jsReduceStep (acc : JSValue) (key : String) : JSValue :=
  if jsTruthy acc && getProp acc key != .undefined then getProp acc key else .undefined

/-- `utils.getNestedProperty(obj, path)` (background.js:160-168): guard
`if (!obj || !path) return undefined`, then split the path on `.` and
reduce.  The body is wrapped in `try/catch` returning `undefined`; the
embedding is total, so the catch arm is unreachable here. -/
def getNestedProperty (v : JSValue) (path : String) : JSValue :=
  if !jsTruthy v || path = "" then .undefined
  else (splitPath path).foldl jsReduceStep v

/-- `utils.getNestedProperty` as invoked on an arbitrary runtime value in
path position (the target-path lists are arbitrary JS values).  A
non-string path either fails the `!path` guard or makes `path.split`
throw inside the function's own `try/catch`; both yield `undefined`. -/
def getNestedPropertyJS (v : JSValue) (p : JSValue) : JSValue :=
  match p with
  | .str s => getNestedProperty v s
  | _ => .undefined


/-! ### Path sanitizer (`utils.sanitizeTargetPaths`, background.js:134-157) -/

/-- `utils.getDefaultPaths()` (background.js:124-131). -/
def getDefaultPaths : List String :=
  ["eventType", "web.webPageDetails.URL", "web.webInteraction.name", "web.webInteraction.region"]

/-- The denylisted substrings (`badPrefixes`, background.js:140-145). -/
def badPrefixes : List String :=
  ["_experience.analytics", "_intelcorp", "meta.state", "timestamp"]

/-- Character-list prefix test, structural so it kernel-evaluates. -/
def isPrefixChars : List Char → List Char → Bool
  | [], _ => true
  | _ :: _, [] => false
  | a :: as, b :: bs => a == b && isPrefixChars as bs

/-- Substring occurrence test on character lists. -/
def containsSub : List Char → List Char → Bool
  | [], pat => isPrefixChars pat []
  | a :: t, pat => isPrefixChars pat (a :: t) || containsSub t pat

/-- `s.includes(pat)` for strings (`String.prototype.includes`). -/
def strIncludes (s pat : String) : Bool := containsSub s.data pat.data

/-- The only exception the modelled code can raise: calling `.includes`
on a value that has no such method throws a `TypeError`. -/
inductive JsError where
  | typeError
deriving DecidableEq, Repr

/-- Decidable equality for `Except` results (used to evaluate concrete
sanitizer runs by `decide`). -/
def exceptDecEq {ε α : Type} [DecidableEq ε] [DecidableEq α] :
    (a b : Except ε α) → Decidable (a = b)
  | .ok a, .ok b =>
      if h : a = b then .isTrue (by rw [h]) else .isFalse (fun he => h (by injection he))
  | .error a, .error b =>
      if h : a = b then .isTrue (by rw [h]) else .isFalse (fun he => h (by injection he))
  | .ok _, .error _ => .isFalse (fun he => Except.noConfusion he)
  | .error _, .ok _ => .isFalse (fun he => Except.noConfusion he)

instance {ε α : Type} [DecidableEq ε] [DecidableEq α] : DecidableEq (Except ε α) :=
  exceptDecEq

/-- `path.includes(pat)` on an arbitrary runtime value: strings do a
substring test, arrays an element-membership test
(`Array.prototype.includes`, SameValueZero), and every other value has no
`includes` method, so the call throws a `TypeError`. -/
def jsIncludes : JSValue → String → Except JsError Bool
  | .str s, pat => .ok (strIncludes s pat)
  | .arr l, pat => .ok (l.contains (.str pat))
  | _, _ => .error .typeError

/-- `badPrefixes.some(prefixStr => path.includes(prefixStr))`: sequential
short-circuiting `some`, propagating the first thrown `TypeError`. -/
def someIncludes (p : JSValue) : List String → Except JsError Bool
  | [] => .ok false
  | pre :: rest =>
      match jsIncludes p pre with
      | .error e => .error e
      | .ok true => .ok true
      | .ok false => someIncludes p rest

/-- The filter callback of `sanitizeTargetPaths`:
`path => !badPrefixes.some(prefixStr => path.includes(prefixStr))`. -/
def passFilter (p : JSValue) : Except JsError Bool :=
  match someIncludes p badPrefixes with
  | .error e => .error e
  | .ok b => .ok (!b)

/-- `Array.prototype.filter` with a callback that can throw: callbacks run
left to right and the first exception propagates. -/
def filterE {α : Type} (f : α → Except JsError Bool) : List α → Except JsError (List α)
  | [] => .ok []
  | a :: t =>
      match f a with
      | .error e => .error e
      | .ok b =>
          match filterE f t with
          | .error e => .error e
          | .ok r => .ok (if b then a :: r else r)

/-- Worker for `[...new Set(list)]`: keep the first occurrence of each
element, dropping later duplicates.  (JavaScript `Set` compares with
SameValueZero; for the primitive values reaching this code that is the
structural equality used here.) -/
def dedupSeen (seen : List JSValue) : List JSValue → List JSValue
  | [] => []
  | a :: t => if a ∈ seen then dedupSeen seen t else a :: dedupSeen (a :: seen) t

/-- `[...new Set(list)]`. -/
def jsSetDedup (l : List JSValue) : List JSValue := dedupSeen [] l

/-- The default paths as runtime string values. -/
def defaultPathsJS : List JSValue := getDefaultPaths.map .str

/-- The elements of an array value (empty for non-arrays). -/
def arrElems : JSValue → List JSValue
  | .arr l => l
  | _ => []

/-- Does the value have an `includes` method (strings and arrays do)? -/
def hasIncludes : JSValue → Bool
  | .str _ => true
  | .arr _ => true
  | _ => false

/-- `utils.sanitizeTargetPaths(paths)` (background.js:134-157): non-array
input yields the defaults; otherwise filter out paths containing a
denylisted substring (a callback throw propagates), prepend the defaults
and deduplicate via `[...new Set(...)]`. -/
def sanitizeTargetPaths : JSValue → Except JsError JSValue
  | .arr paths =>
      match filterE passFilter paths with
      | .error e => .error e
      | .ok clean => .ok (.arr (jsSetDedup (defaultPathsJS ++ clean)))
  | _ => .ok (.arr defaultPathsJS)



/-! ### Payload extractor (`requestProcessor`, background.js:270-413) -/

/-- The dispatched `displayResults` message (`sendResults`,
background.js:359-390).  `results` is the flat path-to-value map in
extraction order; `action` is the fixed tag `"displayResults"`;
`requestInfo` is copied verbatim from the hook's request info and plays no
role in any claim here, so it is not carried. -/
structure ResultMessage where
  action : String
  results : List (JSValue × JSValue)
  url : String
  fullXdm : JSValue
deriving DecidableEq, Repr

/-- The shared `state.targetPaths.forEach(...)` extraction loop of
`processEventData` / `processMetadata`: resolve each path against the
target, record the value and flip `hasMatches` when it is not absent. -/
def extractLoop (target : JSValue) (paths : List JSValue)
    (init : List (JSValue × JSValue) × Bool) : List (JSValue × JSValue) × Bool :=
  paths.foldl
    (fun st p =>
      if getNestedPropertyJS target p ≠ .undefined
      then (st.1 ++ [(p, getNestedPropertyJS target p)], true)
      else st)
    init

/-- `const targetObject = event.xdm || event` for `event = jsonData.events[0]`
(background.js:306-307). -/
def eventTarget (jsonData : JSValue) : JSValue :=
  if jsTruthy (getProp (getProp (getProp jsonData "events") "0") "xdm")
  then getProp (getProp (getProp jsonData "events") "0") "xdm"
  else getProp (getProp jsonData "events") "0"

/-- The synthetic-eventType seeding of `results`/`hasMatches`
(background.js:312-315): only when the user paths do not already request
`eventType` and the target object's `eventType` is truthy. -/
def syntheticInit (targetPaths : List JSValue) (target : JSValue) :
    List (JSValue × JSValue) × Bool :=
  if !(targetPaths.contains (JSValue.str "eventType")) && jsTruthy (getProp target "eventType")
  then ([(JSValue.str "eventType", getProp target "eventType")], true)
  else ([], false)

/-- `requestProcessor.processEventData` (background.js:296-334), returning
`some message` exactly when `sendResults` is invoked.  The guard models
`if (!jsonData.events[0])`; when `events` is absent entirely the source
expression `jsonData.events[0]` throws and the `try/catch` in
`processRequestData` swallows it, which is observationally the same `none`. -/
def processEventData (targetPaths : List JSValue) (jsonData : JSValue) (url : String) :
    Option ResultMessage :=
  if !jsTruthy (getProp (getProp jsonData "events") "0") then none
  else
    if (extractLoop (eventTarget jsonData) targetPaths
          (syntheticInit targetPaths (eventTarget jsonData))).2
    then some ⟨"displayResults",
               (extractLoop (eventTarget jsonData) targetPaths
                 (syntheticInit targetPaths (eventTarget jsonData))).1,
               url, eventTarget jsonData⟩
    else none

/-- `requestProcessor.processMetadata` (background.js:336-357): resolve
every path against the top-level body; dispatch only on a match. -/
def processMetadata (targetPaths : List JSValue) (jsonData : JSValue) (url : String) :
    Option ResultMessage :=
  if (extractLoop jsonData targetPaths ([], false)).2
  then some ⟨"displayResults", (extractLoop jsonData targetPaths ([], false)).1, url, jsonData⟩
  else none

/-- `requestProcessor.processRequestData` (background.js:272-294) from the
already-parsed body onward: `if (!jsonData) return` then the envelope
dispatch `if (jsonData.events && Array.isArray(jsonData.events))` /
`else if (jsonData.meta || jsonData.requestId)`. -/
def processRequestData (targetPaths : List JSValue) (jsonData : JSValue) (url : String) :
    Option ResultMessage :=
  if !jsTruthy jsonData then none
  else if jsTruthy (getProp jsonData "events") && isJsArray (getProp jsonData "events") then
    processEventData targetPaths jsonData url
  else if jsTruthy (getProp jsonData "meta") || jsTruthy (getProp jsonData "requestId") then
    processMetadata targetPaths jsonData url
  else none



/-! ### Correlation cache (`RequestCache`, background.js:12-74) and the
status-code hooks (background.js:592-633).

`Date.now()` becomes an explicit `now` argument; `setTimeout`/`clearTimeout`
become an explicit list of live timers (`Timer` records the pending
`delete` callback's key and fire time) plus the `timeouts` map from key to
timer id, exactly mirroring the class's two `Map`s. -/

/-- One cache entry.  The source calls the third field `type`; that is a
Lean keyword, so it is named `reqType` here.  `statusCode` is attached by
the later hooks; `response` is never assigned anywhere in the script and
is omitted. -/
structure RequestInfo where
  url : String
  method : String
  reqType : String
  timestamp : Nat
  requestId : String
  statusCode : Option Nat
deriving DecidableEq, Repr

/-- A live `setTimeout(() => this.delete(key), expiryMs)` callback. -/
structure Timer where
  id : Nat
  key : String
  fireAt : Nat
deriving DecidableEq, Repr

/-- `Map.prototype.get` on an insertion-ordered association list. -/
def mapGet {β : Type} : List (String × β) → String → Option β
  | [], _ => none
  | (k0, v) :: t, k => if k0 = k then some v else mapGet t k

/-- `Map.prototype.set`: overwrite in place (keeping the entry's
position) or append at the end. -/
def mapSet {β : Type} : List (String × β) → String → β → List (String × β)
  | [], k, v => [(k, v)]
  | (k0, v0) :: t, k, v => if k0 = k then (k, v) :: t else (k0, v0) :: mapSet t k v

/-- `Map.prototype.delete`. -/
def mapDelete {β : Type} : List (String × β) → String → List (String × β)
  | [], _ => []
  | (k0, v0) :: t, k => if k0 = k then t else (k0, v0) :: mapDelete t k

/-- The `RequestCache` instance state: the two `Map`s, plus the explicit
timer model (`timers` = callbacks scheduled and not yet cancelled,
`nextTimerId` = the id `setTimeout` hands out next). -/
structure RequestCache where
  maxSize : Nat
  expiryMs : Nat
  entries : List (String × RequestInfo)
  timeouts : List (String × Nat)
  timers : List Timer
  nextTimerId : Nat
deriving DecidableEq, Repr

/-- `RequestCache.get` (background.js:54-56). -/
def RequestCache.get (c : RequestCache) (k : String) : Option RequestInfo :=
  mapGet c.entries k

/-- `clearTimeout(tid)`: the callback with that id no longer fires. -/
def clearTimer (timers : List Timer) (tid : Nat) : List Timer :=
  timers.filter (fun t => t.id != tid)

/-- `RequestCache.delete` (background.js:58-64): remove the entry, and if
a timeout is registered for the key, cancel it and drop the registration. -/
def RequestCache.delete (c : RequestCache) (k : String) : RequestCache :=
  match mapGet c.timeouts k with
  | some tid =>
      { c with
        entries := mapDelete c.entries k,
        timers := clearTimer c.timers tid,
        timeouts := mapDelete c.timeouts k }
  | none => { c with entries := mapDelete c.entries k }

/-- Lines 20-32 of `RequestCache.set`: cancel any pending timeout for the
key, stamp the value with `Date.now()`, store it, and schedule a fresh
expiry callback. -/
def RequestCache.setRaw (c : RequestCache) (k : String) (v : RequestInfo) (now : Nat) :
    RequestCache :=
  { c with
    entries := mapSet c.entries k { v with timestamp := now },
    timers :=
      (match mapGet c.timeouts k with
       | some tid => clearTimer c.timers tid
       | none => c.timers) ++ [⟨c.nextTimerId, k, now + c.expiryMs⟩],
    timeouts := mapSet c.timeouts k c.nextTimerId,
    nextTimerId := c.nextTimerId + 1 }

/-- The linear scan for the entry with the oldest timestamp
(background.js:36-45): `oldestTime` starts at `Infinity`, modelled as
`none`. -/
def findOldestKey (entries : List (String × RequestInfo)) : Option String :=
  (entries.foldl
    (fun acc kv =>
      match acc.2 with
      | none => (some kv.1, some kv.2.timestamp)
      | some t =>
          if kv.2.timestamp < t then (some kv.1, some kv.2.timestamp) else acc)
    ((none, none) : Option String × Option Nat)).1

/-- `RequestCache.set` (background.js:20-52): the write of lines 20-32
followed by the size-bound eviction of lines 34-51.  Note the eviction
guard is the JavaScript truthiness test `if (oldestKey)`, which skips the
delete when the oldest key is the empty string. -/
def RequestCache.set (c : RequestCache) (k : String) (v : RequestInfo) (now : Nat) :
    RequestCache :=
  if (c.setRaw k v now).entries.length > (c.setRaw k v now).maxSize then
    match findOldestKey (c.setRaw k v now).entries with
    | some okey =>
        if okey ≠ "" then (c.setRaw k v now).delete okey else c.setRaw k v now
    | none => c.setRaw k v now
  else c.setRaw k v now

/-- `new RequestCache()` with the default bounds (background.js:13, 77):
capacity 100, age bound 5 minutes = 300000 ms. -/
def mkRequestCache : RequestCache := ⟨100, 300000, [], [], [], 0⟩

/-- One externally driven cache operation (the claims quantify over
arbitrary interleavings of `set` and `delete`). -/
inductive CacheOp where
  | setOp (k : String) (v : RequestInfo) (now : Nat)
  | delOp (k : String)
deriving Repr

def applyOp (c : RequestCache) : CacheOp → RequestCache
  | .setOp k v now => c.set k v now
  | .delOp k => c.delete k

def runOps (c : RequestCache) (ops : List CacheOp) : RequestCache :=
  ops.foldl applyOp c

/-- A fixed request-info value used for concrete runs. -/
def sampleInfo : RequestInfo :=
  ⟨"https://x.com/ee/v1?configId=1&requestId=2", "POST", "xmlhttprequest", 0, "r", none⟩

/-- `utils.isAdobeWebSdkUrl` (background.js:182-187).  The leading
`!url || typeof url !== 'string'` guard is subsumed: the argument is a
string here and the empty string contains none of the markers. -/
def isAdobeWebSdkUrl (url : String) : Bool :=
  strIncludes url "/ee/" && strIncludes url "configId=" && strIncludes url "requestId="

/-- The `chrome.webRequest.onHeadersReceived` listener
(background.js:592-612), restricted to its cache effect: update the
cached entry's status code if (and only if) the entry exists. -/
def onHeadersReceived (c : RequestCache) (isListening : Bool) (url rid : String)
    (statusCode now : Nat) : RequestCache :=
  if !isListening then c
  else if !isAdobeWebSdkUrl url then c
  else
    match c.get rid with
    | none => c
    | some info => c.set rid { info with statusCode := some statusCode } now

/-- The `chrome.webRequest.onCompleted` listener (background.js:615-633):
the identical update-if-present cache effect. -/
def onCompleted (c : RequestCache) (isListening : Bool) (url rid : String)
    (statusCode now : Nat) : RequestCache :=
  if !isListening then c
  else if !isAdobeWebSdkUrl url then c
  else
    match c.get rid with
    | none => c
    | some info => c.set rid { info with statusCode := some statusCode } now

/-- At most one live expiry timer exists for any key. -/
def atMostOneTimerPerKey (c : RequestCache) : Prop :=
  ∀ k : String, (c.timers.filter (fun t => t.key == k)).length ≤ 1

/-- The timer bookkeeping invariant maintained by `set`/`delete`: every
live timer is the one currently registered in `timeouts` for its key, all
timer ids are below the allocator counter, and ids are unique. -/
def timerInv (c : RequestCache) : Prop :=
  (∀ t ∈ c.timers, mapGet c.timeouts t.key = some t.id)
  ∧ (∀ t ∈ c.timers, t.id < c.nextTimerId)
  ∧ (c.timers.map Timer.id).Nodup

/-! ### Broadcast hub (`DevToolsConnectionManager`, background.js:80-117) -/

/-- A panel connection port: `fails` says whether `postMessage` throws on
it (the model of a dead connection). -/
structure Conn where
  id : Nat
  fails : Bool
deriving DecidableEq, Repr

/-- The `for (const port of this.connections)` loop of `broadcast`
(background.js:108-115): a throwing `postMessage` removes the port from
the set (deleting the current element during `Set` iteration is safe in
JavaScript); a successful one records the delivery. -/
def broadcastLoop (message : JSValue) : List Conn → List Conn × List (Nat × JSValue)
  | [] => ([], [])
  | p :: rest =>
      if p.fails then broadcastLoop message rest
      else
        (p :: (broadcastLoop message rest).1,
         (p.id, message) :: (broadcastLoop message rest).2)

/-- `DevToolsConnectionManager.broadcast` (background.js:95-116): with no
connections, fall back to a runtime-wide `sendMessage` (no panel
delivery, failures swallowed); otherwise run the delivery loop.  Returns
the surviving connection set and the list of performed deliveries. -/
def broadcast (conns : List Conn) (message : JSValue) : List Conn × List (Nat × JSValue) :=
  if conns.length = 0 then (conns, [])
  else broadcastLoop message conns



/-- The concrete Adobe-SDK request URL used in concrete runs. -/
def adobeUrl : String := "https://x.com/ee/v1?configId=1&requestId=2"

/-- A one-entry cache used to instantiate the hook theorems. -/
def c9SampleCache : RequestCache := mkRequestCache.set "r1" sampleInfo 5

/-- 101 inserts with distinct nonempty keys `"a"`, `"aa"`, ... and
strictly increasing timestamps; the oldest entry has key `"a"`. -/
def c4GoodOps : List CacheOp :=
  (List.range 101).map (fun i => .setOp (String.mk (List.replicate (i + 1) 'a')) sampleInfo i)

/-- The same 101 inserts except the first (oldest) key is the empty
string, which is falsy in the `if (oldestKey)` eviction guard. -/
def c4BugOps : List CacheOp :=
  (List.range 101).map (fun i => .setOp (String.mk (List.replicate i 'a')) sampleInfo i)


/-! ### Basic facts about the resolver -/

lemma jsReduceStep_undefined (key : String) : jsReduceStep .undefined key = .undefined := rfl

lemma foldl_jsReduceStep_undefined (ks : List String) :
    ks.foldl jsReduceStep .undefined = .undefined := by
  induction ks with
  | nil => rfl
  | cons k ks ih => simpa [jsReduceStep_undefined] using ih

/-- The claim C6: the property resolver never faults; once any
intermediate value is absent the whole resolution is absent (extending the
key list after an absent intermediate still yields absent), and the two
spec examples `resolve({a:{b:1}}, "a.c.d") = absent` and
`resolve(null, "a") = absent` hold. -/
theorem c6_resolver_absence_safe :
    (∀ (v : JSValue) (ks ks' : List String),
        ks.foldl jsReduceStep v = .undefined →
        (ks ++ ks').foldl jsReduceStep v = .undefined)
    ∧ getNestedProperty (.obj [("a", .obj [("b", .num 1)])]) "a.c.d" = .undefined
    ∧ getNestedProperty .null "a" = .undefined := by
  refine ⟨?_, by decide, by decide⟩
  intro v ks ks' h
  rw [List.foldl_append, h, foldl_jsReduceStep_undefined]

/-- Witness for C6 at a concrete input: resolving `1` against key `"x"`
is absent, and stays absent when the path is extended by `"y"`. -/
theorem c6_resolver_absence_safe_witness :
    (["x"] ++ ["y"]).foldl jsReduceStep (JSValue.num 1) = .undefined :=
  c6_resolver_absence_safe.1 (JSValue.num 1) ["x"] ["y"] (by decide)

/-- The claim C10: a falsy root (`null`, `undefined`, `false`, `0`, `""`)
or an empty path makes `getNestedProperty` return absent, and a falsy root
is never traversed even when it actually has the requested property: the
empty string has a `length` own property (value `0`), yet resolving
`"length"` against it is absent. -/
theorem c10_falsy_root_never_traversed :
    (∀ (v : JSValue) (p : String), jsTruthy v = false → getNestedProperty v p = .undefined)
    ∧ (∀ v : JSValue, getNestedProperty v "" = .undefined)
    ∧ getProp (.str "") "length" = .num 0
    ∧ getNestedProperty (.str "") "length" = .undefined := by
  refine ⟨?_, ?_, by decide, by decide⟩
  · intro v p h
    simp [getNestedProperty, h]
  · intro v
    simp [getNestedProperty]

/-- Witness for C10 at a concrete input: `null` is falsy and resolving
`"a"` against it is absent. -/
theorem c10_falsy_root_never_traversed_witness :
    getNestedProperty .null "a" = .undefined :=
  c10_falsy_root_never_traversed.1 .null "a" (by decide)


/-! ### Facts about the path sanitizer -/

lemma filterE_ok_mem {α : Type} {f : α → Except JsError Bool} :
    ∀ {l r : List α}, filterE f l = .ok r → ∀ x ∈ r, f x = .ok true := by
  intro l
  induction l with
  | nil =>
      intro r h x hx
      simp [filterE] at h
      subst h
      simp at hx
  | cons a t ih =>
      intro r h x hx
      rw [filterE] at h
      cases hfa : f a with
      | error e => rw [hfa] at h; exact absurd h (by simp)
      | ok b =>
          rw [hfa] at h
          cases hft : filterE f t with
          | error e => rw [hft] at h; exact absurd h (by simp)
          | ok r0 =>
              rw [hft] at h
              simp at h
              subst h
              cases b with
              | true =>
                  rcases List.mem_cons.mp (by simpa using hx) with rfl | hx0
                  · exact hfa
                  · exact ih hft x hx0
              | false => exact ih hft x (by simpa using hx)

lemma filterE_eq_self {α : Type} {f : α → Except JsError Bool} :
    ∀ {l : List α}, (∀ x ∈ l, f x = .ok true) → filterE f l = .ok l := by
  intro l
  induction l with
  | nil => intro _; rfl
  | cons a t ih =>
      intro h
      rw [filterE, h a (by simp), ih (fun x hx => h x (by simp [hx]))]
      simp

lemma filterE_isOk {α : Type} {f : α → Except JsError Bool} :
    ∀ {l : List α}, (∀ x ∈ l, ∃ b, f x = .ok b) → ∃ r, filterE f l = .ok r := by
  intro l
  induction l with
  | nil => intro _; exact ⟨[], rfl⟩
  | cons a t ih =>
      intro h
      obtain ⟨b, hb⟩ := h a (by simp)
      obtain ⟨r, hr⟩ := ih (fun x hx => h x (by simp [hx]))
      exact ⟨if b then a :: r else r, by rw [filterE, hb, hr]⟩

lemma mem_dedupSeen {a : JSValue} :
    ∀ {l seen : List JSValue}, a ∈ dedupSeen seen l ↔ a ∈ l ∧ a ∉ seen := by
  intro l
  induction l with
  | nil => intro seen; simp [dedupSeen]
  | cons b t ih =>
      intro seen
      by_cases hb : b ∈ seen
      · rw [dedupSeen, if_pos hb, ih]
        constructor
        · rintro ⟨h1, h2⟩; exact ⟨List.mem_cons_of_mem _ h1, h2⟩
        · rintro ⟨h1, h2⟩
          rcases List.mem_cons.mp h1 with rfl | h1
          · exact absurd hb h2
          · exact ⟨h1, h2⟩
      · rw [dedupSeen, if_neg hb]
        constructor
        · intro h
          rcases List.mem_cons.mp h with rfl | h
          · exact ⟨List.mem_cons_self _ _, hb⟩
          · obtain ⟨h1, h2⟩ := ih.mp h
            exact ⟨List.mem_cons_of_mem _ h1, fun hs => h2 (List.mem_cons_of_mem _ hs)⟩
        · rintro ⟨h1, h2⟩
          rcases List.mem_cons.mp h1 with rfl | h1
          · exact List.mem_cons_self _ _
          · by_cases hab : a = b
            · subst hab; exact List.mem_cons_self _ _
            · exact List.mem_cons_of_mem _
                (ih.mpr ⟨h1, fun hs => by
                  rcases List.mem_cons.mp hs with h | h
                  · exact hab h
                  · exact h2 h⟩)

lemma dedupSeen_congr :
    ∀ {l s₁ s₂ : List JSValue}, (∀ a : JSValue, a ∈ s₁ ↔ a ∈ s₂) →
      dedupSeen s₁ l = dedupSeen s₂ l := by
  intro l
  induction l with
  | nil => intro s₁ s₂ _; rfl
  | cons b t ih =>
      intro s₁ s₂ h
      by_cases hb : b ∈ s₁
      · rw [dedupSeen, dedupSeen, if_pos hb, if_pos ((h b).mp hb)]
        exact ih h
      · rw [dedupSeen, dedupSeen, if_neg hb, if_neg (fun hc => hb ((h b).mpr hc))]
        refine congrArg _ (ih ?_)
        intro a
        simp only [List.mem_cons]
        exact or_congr Iff.rfl (h a)

lemma dedupSeen_append :
    ∀ (l₁ : List JSValue) (s l₂ : List JSValue),
      dedupSeen s (l₁ ++ l₂) = dedupSeen s l₁ ++ dedupSeen (l₁ ++ s) l₂ := by
  intro l₁
  induction l₁ with
  | nil => intro s l₂; simp [dedupSeen]
  | cons b t ih =>
      intro s l₂
      simp only [List.cons_append]
      by_cases hb : b ∈ s
      · rw [dedupSeen, if_pos hb, dedupSeen, if_pos hb, ih]
        congr 1
        apply dedupSeen_congr
        intro a
        simp only [List.mem_cons, List.mem_append]
        constructor
        · rintro (h | h)
          · exact Or.inr (Or.inl h)
          · exact Or.inr (Or.inr h)
        · rintro (rfl | h | h)
          · exact Or.inr hb
          · exact Or.inl h
          · exact Or.inr h
      · rw [dedupSeen, if_neg hb, dedupSeen, if_neg hb, ih, List.cons_append]
        congr 1
        congr 1
        apply dedupSeen_congr
        intro a
        simp only [List.mem_cons, List.mem_append]
        tauto

lemma dedupSeen_nil_of_subset :
    ∀ {l s : List JSValue}, (∀ a ∈ l, a ∈ s) → dedupSeen s l = [] := by
  intro l
  induction l with
  | nil => intro s _; rfl
  | cons b t ih =>
      intro s h
      rw [dedupSeen, if_pos (h b (by simp))]
      exact ih (fun a ha => h a (by simp [ha]))

lemma nodup_dedupSeen : ∀ (l s : List JSValue), (dedupSeen s l).Nodup := by
  intro l
  induction l with
  | nil => intro s; simp [dedupSeen]
  | cons b t ih =>
      intro s
      by_cases hb : b ∈ s
      · rw [dedupSeen, if_pos hb]; exact ih s
      · rw [dedupSeen, if_neg hb]
        refine List.nodup_cons.mpr ⟨fun hc => ?_, ih (b :: s)⟩
        exact (mem_dedupSeen.mp hc).2 (List.mem_cons_self _ _)

lemma dedupSeen_eq_self :
    ∀ {l s : List JSValue}, l.Nodup → (∀ a ∈ l, a ∉ s) → dedupSeen s l = l := by
  intro l
  induction l with
  | nil => intro s _ _; rfl
  | cons b t ih =>
      intro s hnd h
      rw [dedupSeen, if_neg (h b (by simp))]
      refine congrArg _ (ih (List.nodup_cons.mp hnd).2 ?_)
      intro a ha hs
      rcases List.mem_cons.mp hs with rfl | hs
      · exact (List.nodup_cons.mp hnd).1 ha
      · exact h a (by simp [ha]) hs

lemma jsSetDedup_stable (defs c : List JSValue) :
    jsSetDedup (defs ++ jsSetDedup (defs ++ c)) = jsSetDedup (defs ++ c) := by
  unfold jsSetDedup
  have hD : dedupSeen ([] : List JSValue) (defs ++ c)
      = dedupSeen [] defs ++ dedupSeen defs c := by
    rw [dedupSeen_append]
    refine congrArg _ (dedupSeen_congr ?_)
    intro a; simp
  rw [dedupSeen_append, hD]
  have h1 : dedupSeen (defs ++ []) (dedupSeen [] defs ++ dedupSeen defs c)
      = dedupSeen defs (dedupSeen [] defs ++ dedupSeen defs c) :=
    dedupSeen_congr (by intro a; simp)
  rw [h1, dedupSeen_append]
  have h2 : dedupSeen defs (dedupSeen [] defs) = [] := by
    refine dedupSeen_nil_of_subset ?_
    intro a ha
    exact (mem_dedupSeen.mp ha).1
  have h3 : dedupSeen (dedupSeen [] defs ++ defs) (dedupSeen defs c)
      = dedupSeen defs (dedupSeen defs c) := by
    refine dedupSeen_congr ?_
    intro a
    simp only [List.mem_append]
    constructor
    · rintro (h | h)
      · exact (mem_dedupSeen.mp h).1
      · exact h
    · intro h; exact Or.inr h
  have h4 : dedupSeen defs (dedupSeen defs c) = dedupSeen defs c := by
    refine dedupSeen_eq_self (nodup_dedupSeen _ _) ?_
    intro a ha
    exact (mem_dedupSeen.mp ha).2
  rw [h2, h3, h4]
  simp

lemma defaultPaths_pass : ∀ x ∈ defaultPathsJS, passFilter x = .ok true := by decide

/-- The claim C2: path sanitization is idempotent.  Composition is in the
Kleisli sense: if the first application throws, "applying sanitize to the
result" is that same throw. -/
theorem c2_sanitize_idempotent (v : JSValue) :
    (sanitizeTargetPaths v).bind sanitizeTargetPaths = sanitizeTargetPaths v := by
  have hdef : sanitizeTargetPaths (.arr defaultPathsJS) = .ok (.arr defaultPathsJS) := by decide
  cases v with
  | arr paths =>
      cases hf : filterE passFilter paths with
      | error e => simp [sanitizeTargetPaths, hf, Except.bind]
      | ok clean =>
          have hall : ∀ x ∈ jsSetDedup (defaultPathsJS ++ clean), passFilter x = .ok true := by
            intro x hx
            rcases List.mem_append.mp (mem_dedupSeen.mp hx).1 with hd | hc
            · exact defaultPaths_pass x hd
            · exact filterE_ok_mem hf x hc
          have h2 := filterE_eq_self hall
          simp only [sanitizeTargetPaths, hf, Except.bind, h2, jsSetDedup_stable]
  | undefined => simpa [sanitizeTargetPaths, Except.bind] using hdef
  | null => simpa [sanitizeTargetPaths, Except.bind] using hdef
  | bool b => simpa [sanitizeTargetPaths, Except.bind] using hdef
  | num n => simpa [sanitizeTargetPaths, Except.bind] using hdef
  | str s => simpa [sanitizeTargetPaths, Except.bind] using hdef
  | obj fields => simpa [sanitizeTargetPaths, Except.bind] using hdef

/-- The claim C3 as stated is false on the code: a list containing an
element without an `includes` method — here the number `42` — makes the
filter callback throw a `TypeError` out of `sanitizeTargetPaths` instead
of returning a list with the defaults. -/
theorem c3_sanitize_counterexample :
    sanitizeTargetPaths (.arr [.num 42]) = .error .typeError := by decide

/-- The claim C3, amended: for every input that is not a list, and every
list all of whose elements support `includes` (strings and arrays) — in
particular empty lists and lists of strings — `sanitizeTargetPaths`
returns, without raising, a list containing all four mandatory default
paths. -/
theorem c3_sanitize_defaults (v : JSValue)
    (h : ∀ x ∈ arrElems v, hasIncludes x = true) :
    ∃ l, sanitizeTargetPaths v = .ok (.arr l) ∧
      ∀ d ∈ getDefaultPaths, JSValue.str d ∈ l := by
  have hdefmem : ∀ d ∈ getDefaultPaths, JSValue.str d ∈ defaultPathsJS := by
    intro d hd
    exact List.mem_map_of_mem _ hd
  cases v with
  | arr paths =>
      have hok : ∀ x ∈ paths, ∃ b, passFilter x = .ok b := by
        intro x hx
        have hx' : hasIncludes x = true := h x (by simpa [arrElems] using hx)
        have : ∀ pres : List String, ∃ b, someIncludes x pres = .ok b := by
          intro pres
          induction pres with
          | nil => exact ⟨false, rfl⟩
          | cons pre rest ih =>
              cases x with
              | str s =>
                  obtain ⟨b, hb⟩ := ih
                  cases hsb : strIncludes s pre with
                  | true => exact ⟨true, by simp [someIncludes, jsIncludes, hsb]⟩
                  | false => exact ⟨b, by simp [someIncludes, jsIncludes, hsb, hb]⟩
              | arr l =>
                  obtain ⟨b, hb⟩ := ih
                  by_cases hsb : JSValue.str pre ∈ l
                  · exact ⟨true, by simp [someIncludes, jsIncludes, hsb]⟩
                  · exact ⟨b, by simp [someIncludes, jsIncludes, hsb, hb]⟩
              | undefined => simp [hasIncludes] at hx'
              | null => simp [hasIncludes] at hx'
              | bool b => simp [hasIncludes] at hx'
              | num n => simp [hasIncludes] at hx'
              | obj fields => simp [hasIncludes] at hx'
        obtain ⟨b, hb⟩ := this badPrefixes
        exact ⟨!b, by simp [passFilter, hb]⟩
      obtain ⟨clean, hclean⟩ := filterE_isOk hok
      refine ⟨jsSetDedup (defaultPathsJS ++ clean), ?_, ?_⟩
      · simp [sanitizeTargetPaths, hclean]
      · intro d hd
        exact mem_dedupSeen.mpr ⟨List.mem_append.mpr (Or.inl (hdefmem d hd)), by simp⟩
  | undefined => exact ⟨defaultPathsJS, rfl, hdefmem⟩
  | null => exact ⟨defaultPathsJS, rfl, hdefmem⟩
  | bool b => exact ⟨defaultPathsJS, rfl, hdefmem⟩
  | num n => exact ⟨defaultPathsJS, rfl, hdefmem⟩
  | str s => exact ⟨defaultPathsJS, rfl, hdefmem⟩
  | obj fields => exact ⟨defaultPathsJS, rfl, hdefmem⟩

/-- Witness for C3 at a concrete input: a list holding a denylisted
string, an ordinary string and an array sanitizes without raising and the
result contains the four defaults. -/
theorem c3_sanitize_defaults_witness :
    ∃ l, sanitizeTargetPaths (.arr [.str "timestamp", .str "foo.bar", .arr []]) = .ok (.arr l) ∧
      ∀ d ∈ getDefaultPaths, JSValue.str d ∈ l :=
  c3_sanitize_defaults (.arr [.str "timestamp", .str "foo.bar", .arr []]) (by decide)

/-! ### Facts about the payload extractor -/

lemma canonicalIndex_zero (key : String) : canonicalIndex key 0 = none := by
  cases hd : key.data with
  | nil => simp [canonicalIndex, hd]
  | cons c rest =>
      by_cases hc : c = '0' ∧ rest ≠ []
      · simp [canonicalIndex, hd, hc]
      · simp only [canonicalIndex, hd, if_neg hc]
        cases hnd : natDigits? (c :: rest) with
        | none => rfl
        | some i => simp [hnd]

lemma getProp_of_falsy {v : JSValue} (h : jsTruthy v = false) (key : String)
    (hk : key ≠ "length") : getProp v key = .undefined := by
  cases v with
  | undefined => rfl
  | null => rfl
  | bool b => rfl
  | num n => rfl
  | str s =>
      have hs : s = "" := by simpa [jsTruthy] using h
      subst hs
      simp only [getProp, if_neg hk]
      have hl : String.length "" = 0 := rfl
      rw [hl, canonicalIndex_zero]
  | arr l => exact absurd h (by simp [jsTruthy])
  | obj fields => exact absurd h (by simp [jsTruthy])

lemma resolveJS_falsy {v : JSValue} (h : jsTruthy v = false) (p : JSValue) :
    getNestedPropertyJS v p = .undefined := by
  cases p with
  | str s => simp [getNestedPropertyJS, getNestedProperty, h]
  | undefined => rfl
  | null => rfl
  | bool b => rfl
  | num n => rfl
  | arr l => rfl
  | obj fields => rfl

lemma extractLoop_nil (target : JSValue) (init : List (JSValue × JSValue) × Bool) :
    extractLoop target [] init = init := rfl

lemma extractLoop_cons (target p : JSValue) (ps : List JSValue)
    (init : List (JSValue × JSValue) × Bool) :
    extractLoop target (p :: ps) init
      = extractLoop target ps
          (if getNestedPropertyJS target p ≠ .undefined
           then (init.1 ++ [(p, getNestedPropertyJS target p)], true)
           else init) := rfl

lemma extractLoop_snd (target : JSValue) :
    ∀ (paths : List JSValue) (init : List (JSValue × JSValue) × Bool),
      (extractLoop target paths init).2 = true ↔
        (init.2 = true ∨ ∃ p ∈ paths, getNestedPropertyJS target p ≠ .undefined) := by
  intro paths
  induction paths with
  | nil => intro init; simp [extractLoop_nil]
  | cons p ps ih =>
      intro init
      rw [extractLoop_cons]
      by_cases hv : getNestedPropertyJS target p = .undefined
      · rw [if_neg (not_not_intro hv), ih]
        constructor
        · rintro (h | ⟨q, hq, hqr⟩)
          · exact Or.inl h
          · exact Or.inr ⟨q, List.mem_cons_of_mem _ hq, hqr⟩
        · rintro (h | ⟨q, hq, hqr⟩)
          · exact Or.inl h
          · rcases List.mem_cons.mp hq with rfl | hq2
            · exact absurd hv hqr
            · exact Or.inr ⟨q, hq2, hqr⟩
      · rw [if_pos hv, ih]
        constructor
        · intro _; exact Or.inr ⟨p, List.mem_cons_self _ _, hv⟩
        · intro _; exact Or.inl rfl

lemma syntheticInit_snd (paths : List JSValue) (t : JSValue) :
    (syntheticInit paths t).2 = true ↔
      (paths.contains (JSValue.str "eventType") = false
        ∧ jsTruthy (getProp t "eventType") = true) := by
  unfold syntheticInit
  cases hc : paths.contains (JSValue.str "eventType") with
  | true => simp [hc]
  | false =>
      cases he : jsTruthy (getProp t "eventType") with
      | true => simp [hc, he]
      | false => simp [hc, he]

lemma processMetadata_isSome (paths : List JSValue) (body : JSValue) (url : String) :
    (processMetadata paths body url).isSome = (extractLoop body paths ([], false)).2 := by
  unfold processMetadata
  cases h : (extractLoop body paths ([], false)).2 <;> simp [h]

lemma processEventData_isSome (paths : List JSValue) (body : JSValue) (url : String)
    (hg : jsTruthy (getProp (getProp body "events") "0") = true) :
    (processEventData paths body url).isSome
      = (extractLoop (eventTarget body) paths (syntheticInit paths (eventTarget body))).2 := by
  unfold processEventData
  rw [hg]
  cases h : (extractLoop (eventTarget body) paths (syntheticInit paths (eventTarget body))).2
    <;> simp [h]

/-- The claim C7: a `displayResults` message is dispatched iff at least
one path resolved to a non-absent value.  Conjunct 1 gives the exact
event-branch dispatch condition (the synthetic `eventType` counts, and it
fires only when the user paths omit `eventType` and the target object's
`eventType` is truthy); conjunct 2 the metadata branch; conjunct 3 the
claim's form for any path list containing `eventType`; conjunct 4 shows
every sanitizer output — hence the system's `state.targetPaths` — contains
`eventType`, so conjunct 3 always applies; conjunct 5 is the spec's
zero-match example: `{events:[{xdm:{foo:1}}]}` against the default paths
produces no dispatched message. -/
theorem c7_dispatch_iff_match (paths : List JSValue) (body : JSValue) (url : String) :
    ((processEventData paths body url).isSome = true ↔
      ((paths.contains (JSValue.str "eventType") = false
          ∧ jsTruthy (getProp (eventTarget body) "eventType") = true)
        ∨ ∃ p ∈ paths, getNestedPropertyJS (eventTarget body) p ≠ .undefined))
    ∧ ((processMetadata paths body url).isSome = true ↔
        ∃ p ∈ paths, getNestedPropertyJS body p ≠ .undefined)
    ∧ (paths.contains (JSValue.str "eventType") = true →
        ((processEventData paths body url).isSome = true ↔
          ∃ p ∈ paths, getNestedPropertyJS (eventTarget body) p ≠ .undefined))
    ∧ (∀ (v : JSValue) (l : List JSValue),
        sanitizeTargetPaths v = .ok (.arr l) → JSValue.str "eventType" ∈ l)
    ∧ (processRequestData defaultPathsJS
        (.obj [("events", .arr [.obj [("xdm", .obj [("foo", .num 1)])]])]) "u").isSome
        = false := by
  have hev : ((processEventData paths body url).isSome = true ↔
      ((paths.contains (JSValue.str "eventType") = false
          ∧ jsTruthy (getProp (eventTarget body) "eventType") = true)
        ∨ ∃ p ∈ paths, getNestedPropertyJS (eventTarget body) p ≠ .undefined)) := by
    cases hg : jsTruthy (getProp (getProp body "events") "0") with
    | true =>
        rw [processEventData_isSome paths body url hg, extractLoop_snd, syntheticInit_snd]
    | false =>
        have hxdm : getProp (getProp (getProp body "events") "0") "xdm" = .undefined :=
          getProp_of_falsy hg _ (by decide)
        have het : eventTarget body = getProp (getProp body "events") "0" := by
          rw [eventTarget, hxdm]
          simp [jsTruthy]
        have hnone : processEventData paths body url = none := by
          unfold processEventData
          rw [hg]
          simp
        rw [hnone]
        constructor
        · intro h; simp at h
        · rintro (⟨h1, h2⟩ | ⟨p, hp, hr⟩)
          · rw [het, getProp_of_falsy hg _ (by decide)] at h2
            simp [jsTruthy] at h2
          · rw [het, resolveJS_falsy hg] at hr
            exact absurd rfl hr
  refine ⟨hev, ?_, ?_, ?_, by decide⟩
  · rw [processMetadata_isSome, extractLoop_snd]
    simp
  · intro hcont
    constructor
    · intro h
      rcases hev.mp h with ⟨h1, _⟩ | h2
      · rw [hcont] at h1; exact absurd h1 (by simp)
      · exact h2
    · intro h
      exact hev.mpr (Or.inr h)
  · intro v l hs
    cases v with
    | arr paths2 =>
        rw [sanitizeTargetPaths] at hs
        cases hf : filterE passFilter paths2 with
        | error e => rw [hf] at hs; exact absurd hs (by simp)
        | ok clean =>
            rw [hf] at hs
            simp only [Except.ok.injEq, JSValue.arr.injEq] at hs
            subst hs
            refine mem_dedupSeen.mpr ⟨List.mem_append.mpr (Or.inl ?_), by simp⟩
            decide
    | undefined =>
        simp only [sanitizeTargetPaths, Except.ok.injEq, JSValue.arr.injEq] at hs
        subst hs; decide
    | null =>
        simp only [sanitizeTargetPaths, Except.ok.injEq, JSValue.arr.injEq] at hs
        subst hs; decide
    | bool b =>
        simp only [sanitizeTargetPaths, Except.ok.injEq, JSValue.arr.injEq] at hs
        subst hs; decide
    | num n =>
        simp only [sanitizeTargetPaths, Except.ok.injEq, JSValue.arr.injEq] at hs
        subst hs; decide
    | str s =>
        simp only [sanitizeTargetPaths, Except.ok.injEq, JSValue.arr.injEq] at hs
        subst hs; decide
    | obj fields =>
        simp only [sanitizeTargetPaths, Except.ok.injEq, JSValue.arr.injEq] at hs
        subst hs; decide

/-- Witness for C7 at concrete inputs: for the default paths and the
spec's event-envelope example the dispatch condition is exactly "some
path resolves", and the sanitizer output for a non-list input contains
`eventType`. -/
theorem c7_dispatch_iff_match_witness :
    (((processEventData defaultPathsJS
        (.obj [("events", .arr [.obj [("xdm", .obj [("eventType", .str "click")])]])])
        "u").isSome = true ↔
      ∃ p ∈ defaultPathsJS,
        getNestedPropertyJS
          (eventTarget
            (.obj [("events", .arr [.obj [("xdm", .obj [("eventType", .str "click")])]])]))
          p ≠ .undefined))
    ∧ JSValue.str "eventType" ∈ defaultPathsJS :=
  ⟨(c7_dispatch_iff_match defaultPathsJS
      (.obj [("events", .arr [.obj [("xdm", .obj [("eventType", .str "click")])]])])
      "u").2.2.1 (by decide),
   (c7_dispatch_iff_match defaultPathsJS .null "u").2.2.2.1 .null defaultPathsJS (by decide)⟩

/-- The claim C1 as stated is false on the code: with `events` an empty
list and `meta` present (and `eventType` resolvable at top level), the
event branch is taken — the condition only checks `Array.isArray` — and
the guard `if (!jsonData.events[0])` aborts, so no extraction happens,
while the claimed metadata-branch processing of the same body would have
dispatched a message. -/
theorem c1_envelope_counterexample :
    (processRequestData defaultPathsJS
      (.obj [("events", .arr []), ("meta", .obj [("x", .num 1)]), ("eventType", .str "click")])
      "u").isSome = false
    ∧ (processMetadata defaultPathsJS
      (.obj [("events", .arr []), ("meta", .obj [("x", .num 1)]), ("eventType", .str "click")])
      "u").isSome = true := by
  constructor
  · decide
  · decide

/-- The claim C1, amended: for a truthy parsed body, the metadata branch
(resolving every sanitized path against the top-level body) is taken
exactly when `events` is absent, falsy or not an array and `meta` or
`requestId` is truthy; when `events` is an empty array the event branch is
taken instead and no extraction is performed, even if `meta` or
`requestId` is present. -/
theorem c1_envelope_dispatch (paths : List JSValue) (body : JSValue) (url : String) :
    (jsTruthy body = true →
      ¬(jsTruthy (getProp body "events") = true ∧ isJsArray (getProp body "events") = true) →
      (jsTruthy (getProp body "meta") = true ∨ jsTruthy (getProp body "requestId") = true) →
      processRequestData paths body url = processMetadata paths body url)
    ∧ (jsTruthy body = true → getProp body "events" = .arr [] →
        processRequestData paths body url = none) := by
  constructor
  · intro ht hne hmr
    have hb : (jsTruthy (getProp body "events") && isJsArray (getProp body "events")) = false := by
      cases h1 : jsTruthy (getProp body "events") <;>
        cases h2 : isJsArray (getProp body "events") <;> simp_all
    have hor : (jsTruthy (getProp body "meta") || jsTruthy (getProp body "requestId")) = true := by
      rcases hmr with h | h <;> simp [h]
    unfold processRequestData
    rw [ht, hb, hor]
    simp
  · intro ht hev
    have hguard : (jsTruthy (getProp body "events") && isJsArray (getProp body "events")) = true := by
      rw [hev]; decide
    have h0 : getProp (getProp body "events") "0" = .undefined := by
      rw [hev]; decide
    unfold processRequestData
    rw [ht, hguard]
    simp only [Bool.not_true, Bool.false_eq_true, if_false, if_true]
    unfold processEventData
    rw [h0]
    simp [jsTruthy]

/-- Witness for C1 at concrete inputs: a body with truthy `meta` and no
`events` field goes through the metadata branch, and a body with an empty
`events` array produces no message. -/
theorem c1_envelope_dispatch_witness :
    processRequestData defaultPathsJS
        (.obj [("meta", .obj [("x", .num 1)]), ("eventType", .str "click")]) "u"
      = processMetadata defaultPathsJS
        (.obj [("meta", .obj [("x", .num 1)]), ("eventType", .str "click")]) "u"
    ∧ processRequestData defaultPathsJS
        (.obj [("events", .arr []), ("meta", .obj [("x", .num 1)])]) "u" = none :=
  ⟨(c1_envelope_dispatch defaultPathsJS
      (.obj [("meta", .obj [("x", .num 1)]), ("eventType", .str "click")]) "u").1
      (by decide) (by decide) (Or.inl (by decide)),
   (c1_envelope_dispatch defaultPathsJS
      (.obj [("events", .arr []), ("meta", .obj [("x", .num 1)])]) "u").2
      (by decide) (by decide)⟩

/-! ### Facts about the correlation cache -/

lemma mapGet_mapSet_self {β : Type} : ∀ (m : List (String × β)) (k : String) (v : β),
    mapGet (mapSet m k v) k = some v := by
  intro m k v
  induction m with
  | nil => simp [mapSet, mapGet]
  | cons kv t ih =>
      obtain ⟨k0, v0⟩ := kv
      by_cases h : k0 = k
      · simp [mapSet, mapGet, h]
      · simp [mapSet, mapGet, h, ih]

lemma mapGet_mapSet_ne {β : Type} : ∀ (m : List (String × β)) (k k2 : String) (v : β),
    k2 ≠ k → mapGet (mapSet m k v) k2 = mapGet m k2 := by
  intro m k k2 v hne
  induction m with
  | nil => simp [mapSet, mapGet, Ne.symm hne]
  | cons kv t ih =>
      obtain ⟨k0, v0⟩ := kv
      by_cases h : k0 = k
      · subst h
        simp [mapSet, mapGet, Ne.symm hne]
      · simp [mapSet, mapGet, h, ih]

lemma mapGet_mapDelete_ne {β : Type} : ∀ (m : List (String × β)) (k k2 : String),
    k2 ≠ k → mapGet (mapDelete m k) k2 = mapGet m k2 := by
  intro m k k2 hne
  induction m with
  | nil => simp [mapDelete]
  | cons kv t ih =>
      obtain ⟨k0, v0⟩ := kv
      by_cases h : k0 = k
      · subst h
        simp [mapDelete, mapGet, Ne.symm hne]
      · simp [mapDelete, mapGet, h, ih]

lemma length_mapSet_of_mem {β : Type} : ∀ (m : List (String × β)) (k : String) (v : β),
    (mapGet m k).isSome = true → (mapSet m k v).length = m.length := by
  intro m k v hmem
  induction m with
  | nil => simp [mapGet] at hmem
  | cons kv t ih =>
      obtain ⟨k0, v0⟩ := kv
      by_cases h : k0 = k
      · simp [mapSet, h]
      · rw [mapGet] at hmem
        rw [if_neg h] at hmem
        simp [mapSet, h, ih hmem]

lemma mapSet_fst_of_mem {β : Type} : ∀ (m : List (String × β)) (k : String) (v : β),
    (mapGet m k).isSome = true → (mapSet m k v).map Prod.fst = m.map Prod.fst := by
  intro m k v hmem
  induction m with
  | nil => simp [mapGet] at hmem
  | cons kv t ih =>
      obtain ⟨k0, v0⟩ := kv
      by_cases h : k0 = k
      · subst h
        simp [mapSet]
      · rw [mapGet] at hmem
        rw [if_neg h] at hmem
        simp [mapSet, h, ih hmem]

lemma mem_clearTimer {timers : List Timer} {tid : Nat} {t : Timer} :
    t ∈ clearTimer timers tid ↔ t ∈ timers ∧ t.id ≠ tid := by
  simp [clearTimer, List.mem_filter, bne_iff_ne]

lemma timerInv_delete (c : RequestCache) (h : timerInv c) (k : String) :
    timerInv (c.delete k) := by
  obtain ⟨h1, h2, h3⟩ := h
  unfold RequestCache.delete
  cases hto : mapGet c.timeouts k with
  | none => exact ⟨h1, h2, h3⟩
  | some tid =>
      refine ⟨?_, ?_, ?_⟩
      · intro t ht
        obtain ⟨htm, htid⟩ := mem_clearTimer.mp ht
        have hkey : t.key ≠ k := by
          intro hk
          have h1t := h1 t htm
          rw [hk, hto] at h1t
          exact htid (by injection h1t with hh; exact hh.symm)
        show mapGet (mapDelete c.timeouts k) t.key = some t.id
        rw [mapGet_mapDelete_ne _ _ _ hkey]
        exact h1 t htm
      · intro t ht
        exact h2 t (mem_clearTimer.mp ht).1
      · exact List.Nodup.sublist (List.Sublist.map _ (List.filter_sublist _)) h3

lemma timerInv_setRaw (c : RequestCache) (h : timerInv c) (k : String) (v : RequestInfo)
    (now : Nat) : timerInv (c.setRaw k v now) := by
  obtain ⟨h1, h2, h3⟩ := h
  have hmem1 : ∀ t ∈ (match mapGet c.timeouts k with
      | some tid => clearTimer c.timers tid
      | none => c.timers), t ∈ c.timers ∧ t.key ≠ k := by
    intro t ht
    cases hto : mapGet c.timeouts k with
    | none =>
        rw [hto] at ht
        refine ⟨ht, ?_⟩
        intro hk
        have h1t := h1 t ht
        rw [hk, hto] at h1t
        exact Option.noConfusion h1t
    | some tid =>
        rw [hto] at ht
        obtain ⟨htm, htid⟩ := mem_clearTimer.mp ht
        refine ⟨htm, ?_⟩
        intro hk
        have h1t := h1 t htm
        rw [hk, hto] at h1t
        exact htid (by injection h1t with hh; exact hh.symm)
  refine ⟨?_, ?_, ?_⟩
  · intro t ht
    rcases List.mem_append.mp ht with hm | hm
    · obtain ⟨htm, hkey⟩ := hmem1 t hm
      show mapGet (mapSet c.timeouts k c.nextTimerId) t.key = some t.id
      rw [mapGet_mapSet_ne _ _ _ _ hkey]
      exact h1 t htm
    · have heq : t = ⟨c.nextTimerId, k, now + c.expiryMs⟩ := by simpa using hm
      subst heq
      exact mapGet_mapSet_self _ _ _
  · intro t ht
    rcases List.mem_append.mp ht with hm | hm
    · exact Nat.lt_succ_of_lt (h2 t (hmem1 t hm).1)
    · have heq : t = ⟨c.nextTimerId, k, now + c.expiryMs⟩ := by simpa using hm
      subst heq
      exact Nat.lt_succ_self _
  · show (((match mapGet c.timeouts k with
        | some tid => clearTimer c.timers tid
        | none => c.timers) ++ [⟨c.nextTimerId, k, now + c.expiryMs⟩]).map Timer.id).Nodup
    rw [List.map_append]
    have hsubl : ((match mapGet c.timeouts k with
        | some tid => clearTimer c.timers tid
        | none => c.timers).map Timer.id).Sublist (c.timers.map Timer.id) := by
      cases hto : mapGet c.timeouts k with
      | none => exact List.Sublist.refl _
      | some tid => exact List.Sublist.map _ (List.filter_sublist _)
    refine List.Nodup.append (List.Nodup.sublist hsubl h3) (by simp) ?_
    intro a ha hb
    have hb2 : a = c.nextTimerId := by simpa using hb
    subst hb2
    obtain ⟨t, htm, hta⟩ := List.mem_map.mp ha
    have hlt : t.id < c.nextTimerId := h2 t (hmem1 t htm).1
    rw [hta] at hlt
    exact absurd hlt (Nat.lt_irrefl _)

lemma timerInv_set (c : RequestCache) (h : timerInv c) (k : String) (v : RequestInfo)
    (now : Nat) : timerInv (c.set k v now) := by
  have hraw := timerInv_setRaw c h k v now
  unfold RequestCache.set
  by_cases hgt : (c.setRaw k v now).entries.length > (c.setRaw k v now).maxSize
  · rw [if_pos hgt]
    cases hfo : findOldestKey (c.setRaw k v now).entries with
    | none => exact hraw
    | some okey =>
        show timerInv
          (if okey ≠ "" then (c.setRaw k v now).delete okey else c.setRaw k v now)
        by_cases hk : okey ≠ ""
        · rw [if_pos hk]
          exact timerInv_delete _ hraw okey
        · rw [if_neg hk]
          exact hraw
  · rw [if_neg hgt]
    exact hraw

lemma timerInv_runOps : ∀ (ops : List CacheOp) (c : RequestCache),
    timerInv c → timerInv (runOps c ops) := by
  intro ops
  induction ops with
  | nil => intro c h; exact h
  | cons op rest ih =>
      intro c h
      show timerInv (runOps (applyOp c op) rest)
      apply ih
      cases op with
      | setOp k v now => exact timerInv_set c h k v now
      | delOp k => exact timerInv_delete c h k

lemma atMostOne_of_inv (c : RequestCache) (h : timerInv c) : atMostOneTimerPerKey c := by
  obtain ⟨h1, h2, h3⟩ := h
  intro k
  have h3p : (c.timers.map Timer.id).Pairwise (· ≠ ·) := h3
  have hpair : c.timers.Pairwise (fun a b => a.id ≠ b.id) := List.pairwise_map.mp h3p
  cases hl : c.timers.filter (fun t => t.key == k) with
  | nil => simp
  | cons a rest =>
      cases rest with
      | nil => simp
      | cons b t2 =>
          exfalso
          have hpf : (c.timers.filter (fun t => t.key == k)).Pairwise
              (fun a b => a.id ≠ b.id) := hpair.filter _
          rw [hl] at hpf
          have hab : a.id ≠ b.id := (List.pairwise_cons.mp hpf).1 b (by simp)
          have hma := List.mem_filter.mp (show a ∈ c.timers.filter (fun t => t.key == k) by
            rw [hl]; simp)
          have hmb := List.mem_filter.mp (show b ∈ c.timers.filter (fun t => t.key == k) by
            rw [hl]; simp)
          have hka : a.key = k := by simpa using hma.2
          have hkb : b.key = k := by simpa using hmb.2
          have h1a := h1 a hma.1
          have h1b := h1 b hmb.1
          rw [hka] at h1a
          rw [hkb] at h1b
          rw [h1a] at h1b
          exact hab (by injection h1b)

/-- The claim C5: `set` cancels the pending expiry timer before
installing the new one, so after any sequence of `set`/`delete`
operations from a fresh cache there is at most one live expiry timer per
key; and the spec's scenario — `set` at T0 = 0 then again at T0+1min —
leaves exactly one live timer, firing at T0+1min+5min = 360000, not at
T0+5min = 300000. -/
theorem c5_expiry_timer_unique :
    (∀ ops : List CacheOp, atMostOneTimerPerKey (runOps mkRequestCache ops))
    ∧ (runOps mkRequestCache
        [.setOp "k" sampleInfo 0, .setOp "k" sampleInfo 60000]).timers
        = [⟨1, "k", 360000⟩] := by
  constructor
  · intro ops
    refine atMostOne_of_inv _ (timerInv_runOps ops mkRequestCache ?_)
    refine ⟨?_, ?_, ?_⟩ <;> simp [mkRequestCache]
  · decide

set_option maxRecDepth 100000 in
/-- The claim C4 evaluated on the code: with 101 distinct nonempty keys
(oldest first) the capacity bound holds — 100 entries remain and the
oldest key `"a"` is gone — but when the oldest entry's key is the empty
string, the truthiness guard `if (oldestKey)` skips the eviction and all
101 entries remain, the oldest included. -/
theorem c4_capacity_eviction_eval :
    ((runOps mkRequestCache c4GoodOps).entries.length = 100
      ∧ (runOps mkRequestCache c4GoodOps).get "a" = none)
    ∧ ((runOps mkRequestCache c4BugOps).entries.length = 101
      ∧ ((runOps mkRequestCache c4BugOps).get "").isSome = true) := by
  refine ⟨⟨?_, ?_⟩, ?_, ?_⟩ <;> decide

lemma set_entries_of_mem (c : RequestCache) (k : String) (v : RequestInfo) (now : Nat)
    (hmem : (mapGet c.entries k).isSome = true) (hsz : c.entries.length ≤ c.maxSize) :
    (c.set k v now).entries = mapSet c.entries k { v with timestamp := now } := by
  unfold RequestCache.set
  have hlen : (c.setRaw k v now).entries.length = c.entries.length :=
    length_mapSet_of_mem c.entries k _ hmem
  have hcond : ¬((c.setRaw k v now).entries.length > (c.setRaw k v now).maxSize) := by
    rw [hlen]
    show ¬(c.entries.length > c.maxSize)
    omega
  rw [if_neg hcond]
  rfl

lemma onHeadersReceived_none (c : RequestCache) (listening : Bool) (url rid : String)
    (sc now : Nat) (h : c.get rid = none) :
    onHeadersReceived c listening url rid sc now = c := by
  unfold onHeadersReceived
  cases listening with
  | false => rfl
  | true =>
      cases ha : isAdobeWebSdkUrl url with
      | false => rfl
      | true => rw [h]; rfl

lemma onCompleted_none (c : RequestCache) (listening : Bool) (url rid : String)
    (sc now : Nat) (h : c.get rid = none) :
    onCompleted c listening url rid sc now = c := by
  unfold onCompleted
  cases listening with
  | false => rfl
  | true =>
      cases ha : isAdobeWebSdkUrl url with
      | false => rfl
      | true => rw [h]; rfl

lemma onHeadersReceived_some (c : RequestCache) (url rid : String) (sc now : Nat)
    (info : RequestInfo) (hurl : isAdobeWebSdkUrl url = true) (hget : c.get rid = some info) :
    onHeadersReceived c true url rid sc now
      = c.set rid { info with statusCode := some sc } now := by
  unfold onHeadersReceived
  rw [hurl, hget]
  rfl

lemma onCompleted_some (c : RequestCache) (url rid : String) (sc now : Nat)
    (info : RequestInfo) (hurl : isAdobeWebSdkUrl url = true) (hget : c.get rid = some info) :
    onCompleted c true url rid sc now
      = c.set rid { info with statusCode := some sc } now := by
  unfold onCompleted
  rw [hurl, hget]
  rfl

/-- The claim C9: the headers-received and completed hooks never create a
cache entry — an absent request id leaves the cache exactly unchanged —
and for a present id (within capacity, while listening, on a matching
URL) the key list is unchanged, the entry's `statusCode` becomes the
hook's status code and its `timestamp` the current time with all other
fields kept, and every other key's entry is untouched. -/
theorem c9_statuscode_hooks (c : RequestCache) (listening : Bool) (url rid : String)
    (sc now : Nat) :
    (c.get rid = none →
      onHeadersReceived c listening url rid sc now = c
      ∧ onCompleted c listening url rid sc now = c)
    ∧ (∀ info : RequestInfo, c.get rid = some info →
        c.entries.length ≤ c.maxSize → listening = true → isAdobeWebSdkUrl url = true →
        ((onHeadersReceived c listening url rid sc now).entries.map Prod.fst
            = c.entries.map Prod.fst
          ∧ (onHeadersReceived c listening url rid sc now).get rid
              = some { info with statusCode := some sc, timestamp := now }
          ∧ (∀ k2, k2 ≠ rid →
              (onHeadersReceived c listening url rid sc now).get k2 = c.get k2))
        ∧ ((onCompleted c listening url rid sc now).entries.map Prod.fst
            = c.entries.map Prod.fst
          ∧ (onCompleted c listening url rid sc now).get rid
              = some { info with statusCode := some sc, timestamp := now }
          ∧ (∀ k2, k2 ≠ rid →
              (onCompleted c listening url rid sc now).get k2 = c.get k2))) := by
  constructor
  · intro h
    exact ⟨onHeadersReceived_none c listening url rid sc now h,
           onCompleted_none c listening url rid sc now h⟩
  · intro info hget hsz hlist hurl
    subst hlist
    have hmem : (mapGet c.entries rid).isSome = true := by
      show (c.get rid).isSome = true
      rw [hget]
      rfl
    have hset := set_entries_of_mem c rid { info with statusCode := some sc } now hmem hsz
    have hget2 : (c.set rid { info with statusCode := some sc } now).get rid
        = some { info with statusCode := some sc, timestamp := now } := by
      show mapGet (c.set rid { info with statusCode := some sc } now).entries rid
        = some { info with statusCode := some sc, timestamp := now }
      rw [hset]
      exact mapGet_mapSet_self _ _ _
    have hother : ∀ k2, k2 ≠ rid →
        (c.set rid { info with statusCode := some sc } now).get k2 = c.get k2 := by
      intro k2 hk2
      show mapGet (c.set rid { info with statusCode := some sc } now).entries k2
        = mapGet c.entries k2
      rw [hset]
      exact mapGet_mapSet_ne _ _ _ _ hk2
    have hfst : (c.set rid { info with statusCode := some sc } now).entries.map Prod.fst
        = c.entries.map Prod.fst := by
      rw [hset]
      exact mapSet_fst_of_mem _ _ _ hmem
    constructor
    · rw [onHeadersReceived_some c url rid sc now info hurl hget]
      exact ⟨hfst, hget2, hother⟩
    · rw [onCompleted_some c url rid sc now info hurl hget]
      exact ⟨hfst, hget2, hother⟩

/-- Witness for C9 at concrete inputs: on a one-entry cache, the hooks
leave the cache unchanged for an absent id, and for the present id
`"r1"` update exactly its status code and timestamp. -/
theorem c9_statuscode_hooks_witness :
    (onHeadersReceived c9SampleCache true adobeUrl "zz" 200 10 = c9SampleCache
      ∧ onCompleted c9SampleCache true adobeUrl "zz" 200 10 = c9SampleCache)
    ∧ ((onHeadersReceived c9SampleCache true adobeUrl "r1" 200 10).entries.map Prod.fst
          = c9SampleCache.entries.map Prod.fst
        ∧ (onHeadersReceived c9SampleCache true adobeUrl "r1" 200 10).get "r1"
            = some { sampleInfo with statusCode := some 200, timestamp := 10 }
        ∧ (∀ k2, k2 ≠ "r1" →
            (onHeadersReceived c9SampleCache true adobeUrl "r1" 200 10).get k2
              = c9SampleCache.get k2)) :=
  ⟨(c9_statuscode_hooks c9SampleCache true adobeUrl "zz" 200 10).1 (by decide),
   (((c9_statuscode_hooks c9SampleCache true adobeUrl "r1" 200 10).2
      { sampleInfo with timestamp := 5 } (by decide) (by decide) rfl (by decide)).1)⟩

/-! ### Facts about the broadcast hub -/

lemma broadcastLoop_eq (message : JSValue) :
    ∀ conns : List Conn,
      broadcastLoop message conns
        = (conns.filter (fun p => !p.fails),
           (conns.filter (fun p => !p.fails)).map (fun p => (p.id, message))) := by
  intro conns
  induction conns with
  | nil => rfl
  | cons p rest ih =>
      cases hp : p.fails with
      | true => simp [broadcastLoop, hp, ih]
      | false => simp [broadcastLoop, hp, ih]

/-- The claim C8: broadcasting over a non-empty connection set in which
some connection's send throws removes that connection from the set, while
every non-throwing connection in the set still receives the message; the
loop itself never raises (it is total and catches each send failure). -/
theorem c8_broadcast_resilient (conns : List Conn) (message : JSValue) (c : Conn)
    (hne : conns ≠ []) (_hmemc : c ∈ conns) (hfail : c.fails = true) :
    c ∉ (broadcast conns message).1
    ∧ (∀ d ∈ conns, d.fails = false →
        d ∈ (broadcast conns message).1 ∧ (d.id, message) ∈ (broadcast conns message).2) := by
  have hlen : ¬(conns.length = 0) := by
    simpa [List.length_eq_zero] using hne
  unfold broadcast
  rw [if_neg hlen, broadcastLoop_eq]
  constructor
  · intro hmem
    have hf := (List.mem_filter.mp hmem).2
    rw [hfail] at hf
    simp at hf
  · intro d hd hdf
    refine ⟨List.mem_filter.mpr ⟨hd, by simp [hdf]⟩, ?_⟩
    exact List.mem_map.mpr ⟨d, List.mem_filter.mpr ⟨hd, by simp [hdf]⟩, rfl⟩

/-- Witness for C8 at a concrete input: of two connections where the
second throws on send, the first still receives the message and the
second is removed from the active set. -/
theorem c8_broadcast_resilient_witness :
    (Conn.mk 1 true) ∉ (broadcast [Conn.mk 0 false, Conn.mk 1 true] .null).1
    ∧ (∀ d ∈ [Conn.mk 0 false, Conn.mk 1 true], d.fails = false →
        d ∈ (broadcast [Conn.mk 0 false, Conn.mk 1 true] .null).1
        ∧ (d.id, JSValue.null) ∈ (broadcast [Conn.mk 0 false, Conn.mk 1 true] .null).2) :=
  c8_broadcast_resilient [Conn.mk 0 false, Conn.mk 1 true] .null (Conn.mk 1 true)
    (by decide) (by decide) (by decide)

end NoseySdk
